import Mathlib

/-!
Verification development for the tensor-comparison layer of an array
library (source: aten/src/ATen/native/TensorCompare.cpp).

The development shallowly embeds the decision logic of that file:

* scalar values are modelled exactly (`FP`: rationals plus infinities and
  NaN; no rounding is modelled),
* tensors are modelled as flat lists of values together with the metadata
  (dtype, device, layout, shape) the source inspects,
* external kernels (per-device stubs) are modelled either abstractly, as a
  record of kernel functions (`BinKernels`), or — where a claim needs their
  documented contract — by definitions marked `Modelled from the spec`.

Fallible operations return `Except TCErr`, with the error taxonomy of the
specification (§7).
-/

deriving instance DecidableEq for Except

/-- Model of a scalar numeric value as it participates in comparisons:
an exact rational, one of the two infinities, or NaN.  Floating-point
rounding is not modelled. -/
inductive FP where
  | num (q : ℚ)
  | posInf
  | negInf
  | nan
deriving DecidableEq

/-- NaN test, i.e. the C++ idiom `x != x` on scalars. -/
def FP.isNaN : FP → Bool
  | .nan => true
  | _ => false

/-- Elementwise equality of scalar values (IEEE semantics: NaN compares
unequal to everything, including itself). -/
def feq : FP → FP → Bool
  | .num a, .num b => a == b
  | .posInf, .posInf => true
  | .negInf, .negInf => true
  | _, _ => false

/-- IEEE-style negation. -/
def FP.neg : FP → FP
  | .num q => .num (-q)
  | .posInf => .negInf
  | .negInf => .posInf
  | .nan => .nan

/-- IEEE-style addition (exact on finite values; `∞ + (-∞) = NaN`). -/
def FP.add : FP → FP → FP
  | .nan, _ => .nan
  | _, .nan => .nan
  | .posInf, .negInf => .nan
  | .negInf, .posInf => .nan
  | .posInf, _ => .posInf
  | _, .posInf => .posInf
  | .negInf, _ => .negInf
  | _, .negInf => .negInf
  | .num a, .num b => .num (a + b)

/-- IEEE-style subtraction. -/
def FP.sub (a b : FP) : FP := FP.add a (FP.neg b)

/-- IEEE-style multiplication (exact on finite values; `0 · ∞ = NaN`). -/
def FP.mul : FP → FP → FP
  | .nan, _ => .nan
  | _, .nan => .nan
  | .posInf, .posInf => .posInf
  | .posInf, .negInf => .negInf
  | .negInf, .posInf => .negInf
  | .negInf, .negInf => .posInf
  | .num a, .posInf => if a = 0 then .nan else if 0 < a then .posInf else .negInf
  | .num a, .negInf => if a = 0 then .nan else if 0 < a then .negInf else .posInf
  | .posInf, .num b => if b = 0 then .nan else if 0 < b then .posInf else .negInf
  | .negInf, .num b => if b = 0 then .nan else if 0 < b then .negInf else .posInf
  | .num a, .num b => .num (a * b)

/-- Absolute value. -/
def FP.abs : FP → FP
  | .num q => .num |q|
  | .posInf => .posInf
  | .negInf => .posInf
  | .nan => .nan

/-- Finiteness test (`isfinite`): true exactly on finite numbers. -/
def FP.isFinite : FP → Bool
  | .num _ => true
  | _ => false

/-- IEEE-style `≤` comparison: false whenever an operand is NaN. -/
def FP.fle : FP → FP → Bool
  | .nan, _ => false
  | _, .nan => false
  | .negInf, _ => true
  | _, .posInf => true
  | .posInf, _ => false
  | _, .negInf => false
  | .num a, .num b => a ≤ b

/-- Scalar element types of the library relevant to this module. -/
inductive DType where
  | bool
  | uint8
  | int8
  | int16
  | int32
  | int64
  | half
  | float
  | double
  | complexFloat
  | complexDouble
deriving DecidableEq

/-- Floating-point dtypes. -/
def DType.isFloatingPoint : DType → Bool
  | .half | .float | .double => true
  | _ => false

/-- Complex dtypes. -/
def DType.isComplexT : DType → Bool
  | .complexFloat | .complexDouble => true
  | _ => false

/-- Integral dtypes, boolean included (`isIntegralType(·, includeBool=true)`). -/
def DType.isIntegralInclBool : DType → Bool
  | .bool | .uint8 | .int8 | .int16 | .int32 | .int64 => true
  | _ => false

/-- Promotion category of a dtype: bool < integer < floating < complex. -/
def DType.cat : DType → Nat
  | .bool => 0
  | .uint8 | .int8 | .int16 | .int32 | .int64 => 1
  | .half | .float | .double => 2
  | .complexFloat | .complexDouble => 3

/-- Category of a wrapped scalar operand. -/
inductive SCat where
  | boolS
  | intS
  | floatS
  | complexS
deriving DecidableEq

/-- Promotion category of a scalar operand. -/
def SCat.cat : SCat → Nat
  | .boolS => 0
  | .intS => 1
  | .floatS => 2
  | .complexS => 3

/-- Default dtype of a promotion category, used when a scalar operand
promotes past the tensor operand's category (bool → bool, integer → the
64-bit signed integer type, floating → the library default floating
dtype). -/
def defaultDTypeOfCat : Nat → DType
  | 0 => .bool
  | 1 => .int64
  | 2 => .float
  | _ => .complexFloat

/-- Error taxonomy of the module (specification §7).  `castError` stands
for the in-place promotion failure called "UnsafeCast" there;
`backendError` covers the device-type/layout checks of `mode_out` that the
taxonomy does not name. -/
inductive TCErr where
  | dtypeMismatch
  | unsupportedType
  | invalidArgument
  | castError
  | deviceMismatch
  | indexOutOfRange
  | emptyReductionDim
  | backendError
deriving DecidableEq

/-- Modelled from the spec: `at::native::result_type` over
`update_result_type_state` (ATen's TypeProperties) is not part of this
source file.  Per §4.1 the resolver folds operand categories through the
ordering bool < integer < floating < complex; if the scalar bounds do not
raise the category the tensor operand's dtype is kept, otherwise the
result is the raised category's default dtype. -/
def promoteClampDtype (self : DType) (bounds : List SCat) : DType :=
  let c := bounds.foldl (fun acc s => max acc s.cat) self.cat
  if c = self.cat then self else defaultDTypeOfCat c

/-- Meta step of scalar-bound `clamp` (TORCH_META_FUNC(clamp)): requires at
least one bound, rejects complex, and for a non-floating `self` resolves
type promotion over {self, min?, max?}, refusing an in-place call whose
promoted type differs from self's dtype.  Returns the dtype the iterator
is built at. -/
def clamp_meta (selfDT : DType) (mn mx : Option SCat) (inplace : Bool) :
    Except TCErr DType :=
  if mn.isNone && mx.isNone then .error .invalidArgument
  else if selfDT.isComplexT then .error .unsupportedType
  else if !selfDT.isFloatingPoint then
    let rt := promoteClampDtype selfDT (mn.toList ++ mx.toList)
    if rt ≠ selfDT ∧ inplace then .error .castError
    else if rt.isComplexT then .error .unsupportedType
    else .ok rt
  else .ok selfDT

/-- Meta step of scalar-bound `clamp_max`: rejects complex self and complex
scalar, then for a non-floating self resolves promotion over {self, max}
and refuses an in-place call whose promoted type differs from self's
dtype. -/
def clamp_max_meta (selfDT : DType) (bound : SCat) (inplace : Bool) :
    Except TCErr DType :=
  if selfDT.isComplexT then .error .unsupportedType
  else if bound = .complexS then .error .unsupportedType
  else if !selfDT.isFloatingPoint then
    let rt := promoteClampDtype selfDT [bound]
    if rt ≠ selfDT ∧ inplace then .error .castError
    else .ok rt
  else .ok selfDT

/-- Meta step of scalar-bound `clamp_min`; same checks as `clamp_max_meta`
with the bound playing the min role. -/
def clamp_min_meta (selfDT : DType) (bound : SCat) (inplace : Bool) :
    Except TCErr DType :=
  if selfDT.isComplexT then .error .unsupportedType
  else if bound = .complexS then .error .unsupportedType
  else if !selfDT.isFloatingPoint then
    let rt := promoteClampDtype selfDT [bound]
    if rt ≠ selfDT ∧ inplace then .error .castError
    else .ok rt
  else .ok selfDT

/-- A scalar argument: its promotion category together with its value. -/
structure ScalarV where
  cat : SCat
  val : FP
deriving DecidableEq

/-- What the impl step of a scalar-bound clamp does: either fill the whole
output (no per-element kernel), or dispatch one of the three scalar clamp
kernels at the iterator's common dtype. -/
inductive ClampOutcome where
  | filled (out : List FP)
  | scalarKernel (rt : DType) (mn mx : ScalarV)
  | maxKernel (rt : DType) (mx : ScalarV)
  | minKernel (rt : DType) (mn : ScalarV)
deriving DecidableEq

/-- True exactly on the wholesale-fill outcome. -/
def ClampOutcome.isFilled : ClampOutcome → Bool
  | .filled _ => true
  | _ => false

/-- Impl step of scalar-bound `clamp` (TORCH_IMPL_FUNC(clamp_out)): with
both bounds present, a NaN bound fills the output with NaN; otherwise the
two-sided kernel runs.  With a single bound the corresponding one-sided
kernel is dispatched unconditionally. -/
def clamp_out (rt : DType) (self : List FP) (mn mx : Option ScalarV) :
    ClampOutcome :=
  match mn, mx with
  | some a, some b =>
      if a.val.isNaN || b.val.isNaN then .filled (self.map fun _ => FP.nan)
      else .scalarKernel rt a b
  | none, some b => .maxKernel rt b
  | some a, none => .minKernel rt a
  | none, none => .filled []  -- unreachable: the meta step rejects this case

/-- Impl step of scalar `clamp_max` (TORCH_IMPL_FUNC(clamp_max_out)): a NaN
bound fills the output with the bound itself, otherwise the kernel runs. -/
def clamp_max_out (rt : DType) (self : List FP) (mx : ScalarV) : ClampOutcome :=
  if mx.val.isNaN then .filled (self.map fun _ => mx.val)
  else .maxKernel rt mx

/-- Impl step of scalar `clamp_min` (TORCH_IMPL_FUNC(clamp_min_out)): a NaN
bound fills the output with the bound itself, otherwise the kernel runs. -/
def clamp_min_out (rt : DType) (self : List FP) (mn : ScalarV) : ClampOutcome :=
  if mn.val.isNaN then .filled (self.map fun _ => mn.val)
  else .minKernel rt mn

/-- Scalar-bound `clamp`, meta step then impl step. -/
def clamp_op (selfDT : DType) (self : List FP) (mn mx : Option ScalarV)
    (inplace : Bool) : Except TCErr ClampOutcome :=
  match clamp_meta selfDT (mn.map (·.cat)) (mx.map (·.cat)) inplace with
  | .error e => .error e
  | .ok rt => .ok (clamp_out rt self mn mx)

/-- Scalar-bound `clamp_max`, meta step then impl step. -/
def clamp_max_op (selfDT : DType) (self : List FP) (mx : ScalarV)
    (inplace : Bool) : Except TCErr ClampOutcome :=
  match clamp_max_meta selfDT mx.cat inplace with
  | .error e => .error e
  | .ok rt => .ok (clamp_max_out rt self mx)

/-- Scalar-bound `clamp_min`, meta step then impl step. -/
def clamp_min_op (selfDT : DType) (self : List FP) (mn : ScalarV)
    (inplace : Bool) : Except TCErr ClampOutcome :=
  match clamp_min_meta selfDT mn.cat inplace with
  | .error e => .error e
  | .ok rt => .ok (clamp_min_out rt self mn)

/-- The elementwise kernels the tensor-bound clamps dispatch, abstracted as
a record: the theorems about delegation hold for every choice of kernel
functions. -/
structure BinKernels where
  maximumK : FP → FP → FP
  minimumK : FP → FP → FP
  clampK : FP → FP → FP → FP

/-- Three-list zip, used to run the ternary clamp kernel. -/
def zipWith3 (f : FP → FP → FP → FP) : List FP → List FP → List FP → List FP
  | a :: as, b :: bs, c :: cs => f a b c :: zipWith3 f as bs cs
  | _, _, _ => []

/-- Impl step of tensor-bound `clamp` (TORCH_IMPL_FUNC(clamp_Tensor_out)):
with both bounds it runs the ternary clamp kernel, with only a min bound
the `maximum` kernel, with only a max bound the `minimum` kernel.  The
no-bound case is unreachable (meta rejects it). -/
def clamp_Tensor_out (env : BinKernels) (self : List FP)
    (mn mx : Option (List FP)) : List FP :=
  match mn, mx with
  | some lo, some hi => zipWith3 env.clampK self lo hi
  | some lo, none => List.zipWith env.maximumK self lo
  | none, some hi => List.zipWith env.minimumK self hi
  | none, none => []

/-- Impl step of tensor-bound `clamp_max`: dispatches the `minimum` kernel. -/
def clamp_max_Tensor_out (env : BinKernels) (self mx : List FP) : List FP :=
  List.zipWith env.minimumK self mx

/-- Impl step of tensor-bound `clamp_min`: dispatches the `maximum` kernel. -/
def clamp_min_Tensor_out (env : BinKernels) (self mn : List FP) : List FP :=
  List.zipWith env.maximumK self mn

/-- Modelled from the spec: the elementwise `maximum` primitive (§6) lives
outside this source file; it dispatches the same `maximum` kernel the
tensor-bound clamps reuse. -/
def maximum_op (env : BinKernels) (a b : List FP) : List FP :=
  List.zipWith env.maximumK a b

/-- Modelled from the spec: the elementwise `minimum` primitive (§6) lives
outside this source file; it dispatches the same `minimum` kernel the
tensor-bound clamps reuse. -/
def minimum_op (env : BinKernels) (a b : List FP) : List FP :=
  List.zipWith env.minimumK a b

/-- Tensor-bound `clamp`: meta checks (at least one bound, no complex self)
then the impl dispatch. -/
def clamp_Tensor_op (env : BinKernels) (selfDT : DType) (self : List FP)
    (mn mx : Option (List FP)) : Except TCErr (List FP) :=
  if mn.isNone && mx.isNone then .error .invalidArgument
  else if selfDT.isComplexT then .error .unsupportedType
  else .ok (clamp_Tensor_out env self mn mx)

/-- The `clip` alias of scalar-bound `clamp`: forwards all arguments
unchanged (`clip`, `clip_` and `clip_out` all reduce to the corresponding
`clamp` entry point; the in-place and explicit-output variants are the
`inplace` flag). -/
def clip_op (selfDT : DType) (self : List FP) (mn mx : Option ScalarV)
    (inplace : Bool) : Except TCErr ClampOutcome :=
  clamp_op selfDT self mn mx inplace

/-- The `clip` alias of tensor-bound `clamp`: forwards all arguments
unchanged. -/
def clip_Tensor_op (env : BinKernels) (selfDT : DType) (self : List FP)
    (mn mx : Option (List FP)) : Except TCErr (List FP) :=
  clamp_Tensor_op env selfDT self mn mx

/-- A tensor as `isclose` sees it: dtype, quantization flag, and the flat
list of values. -/
structure ATensor where
  dtype : DType
  quantized : Bool
  data : List FP
deriving DecidableEq

/-- The allowed-error term `atol + |rtol · b|` of the isclose error branch
(exact arithmetic; the widening casts of the source preserve values in
this model). -/
def iscloseAllowed (rtol atol : ℚ) (b : FP) : FP :=
  FP.add (.num atol) (FP.abs (FP.mul (.num rtol) b))

/-- The actual-error term `|a - b|` of the isclose error branch. -/
def iscloseActual (a b : FP) : FP :=
  FP.abs (FP.sub a b)

/-- `isclose` (native::isclose): validates dtypes, quantization and the
tolerances, computes the equality mask (ORing in the NaN-match mask for
floating/complex inputs when `equal_nan`), short-circuits when both
tolerances are zero, and otherwise ORs in the finite-error test. -/
def isclose (self other : ATensor) (rtol atol : ℚ) (equal_nan : Bool) :
    Except TCErr (List Bool) :=
  if self.dtype ≠ other.dtype then .error .dtypeMismatch
  else if self.quantized || other.quantized then .error .unsupportedType
  else if rtol < 0 then .error .invalidArgument
  else if atol < 0 then .error .invalidArgument
  else
    let close0 := List.zipWith feq self.data other.data
    let close :=
      if equal_nan && (self.dtype.isFloatingPoint || self.dtype.isComplexT) then
        List.zipWith (fun c (p : FP × FP) => c || (p.1.isNaN && p.2.isNaN))
          close0 (self.data.zip other.data)
      else close0
    if rtol = 0 ∧ atol = 0 then .ok close
    else
      .ok (List.zipWith
        (fun c (p : FP × FP) =>
          c || ((iscloseActual p.1 p.2).isFinite &&
                FP.fle (iscloseActual p.1 p.2) (iscloseAllowed rtol atol p.2)))
        close (self.data.zip other.data))

/-- The mask the specification's words describe for zero tolerances: the
equality mask, ORed with the NaN-match mask when `equal_nan` is set. -/
def closeMaskSpec (self other : ATensor) (equal_nan : Bool) : List Bool :=
  List.zipWith (fun x y => feq x y || (equal_nan && (x.isNaN && y.isNaN)))
    self.data other.data

/-- Value well-formedness: a tensor of non-floating dtype holds no NaN
values (real integer/bool storage cannot represent NaN). -/
def wfData (t : ATensor) : Prop :=
  t.dtype.isFloatingPoint = true ∨ t.data.all (fun x => !x.isNaN) = true

/-- The i-th entry of a mask result, when the computation succeeded. -/
def maskGet (r : Except TCErr (List Bool)) (i : Nat) : Option Bool :=
  match r with
  | .ok l => l.get? i
  | .error _ => none

/-- Number of elements of a shape. -/
def numelList (s : List Nat) : Nat := s.prod

/-- Shape of a reduction output along dimension `d` (external
`resize_reduction_with_indices` / `get_zero_numel_tensor_size` contract,
§3): the reduced dimension is removed unless `keepdim` keeps it at size 1. -/
def reducedShape (s : List Nat) (d : Nat) (keepdim : Bool) : List Nat :=
  if keepdim then s.set d 1 else s.eraseIdx d

/-- Rank of the reduction output. -/
def rankAfterReduction (s : List Nat) (d : Nat) (keepdim : Bool) : Nat :=
  (reducedShape s d keepdim).length

/-- Dimension wrap-around (`maybe_wrap_dim`): a rank-0 tensor accepts
dims -1 and 0; otherwise `dim` must lie in `[-rank, rank)` and is reduced
modulo the rank. -/
def wrapDim (dim : Int) (rank : Nat) : Except TCErr Nat :=
  let r : Int := Int.ofNat (max rank 1)
  if -r ≤ dim ∧ dim < r then .ok (dim % r).toNat else .error .indexOutOfRange

/-- Modelled from the spec: `zero_numel_check_dims` (ReduceOpsUtils) is not
part of this source file.  Per §4.5 it rejects reducing along a zero-length
axis; rank-0 tensors pass (their dim validity is the wrap check). -/
def zeroNumelCheckPass (s : List Nat) (d : Nat) : Bool :=
  s.length == 0 || s.getD d 1 != 0

/-- A tensor as the min/max reductions see it: shape and flat integer
data. -/
structure STensor where
  shape : List Nat
  data : List Int
deriving DecidableEq

/-- What the impl step of min/max-with-indices does: nothing beyond the
meta-step resize (empty input), a direct fill of values/indices (0-dim
single element), or a dispatch of the reduction kernel. -/
inductive MinMaxOutcome where
  | resizedOnly (outShape : List Nat)
  | trivialFill (outShape : List Nat) (value : Int) (index : Nat)
  | kernel (outShape : List Nat)
deriving DecidableEq

/-- True exactly when the general reduction kernel is dispatched. -/
def MinMaxOutcome.isGeneralKernel : MinMaxOutcome → Bool
  | .kernel _ => true
  | _ => false

/-- Impl step shared by max/min (minmax_out_impl): an empty input does
nothing (outputs stay as resized by the meta step); a single-element
rank-0 input fills values with the sole element and indices with 0; any
other input goes to the reduction kernel. -/
def minmax_out_impl (t : STensor) (out : List Nat) : MinMaxOutcome :=
  if 0 < numelList t.shape then
    if numelList t.shape = 1 ∧ t.shape.length = 0 then
      .trivialFill out (t.data.headD 0) 0
    else .kernel out
  else .resizedOnly out

/-- `max` along a dimension: the meta step wraps the dim, runs the empty
reduced-dimension check and resizes the outputs; the impl step is
`minmax_out_impl` with the max kernel. -/
def max_dim_out (t : STensor) (dim : Int) (keepdim : Bool) :
    Except TCErr MinMaxOutcome :=
  match wrapDim dim t.shape.length with
  | .error e => .error e
  | .ok d =>
      if zeroNumelCheckPass t.shape d then
        .ok (minmax_out_impl t (reducedShape t.shape d keepdim))
      else .error .emptyReductionDim

/-- `min` along a dimension: same pipeline as `max_dim_out`, dispatching
the min kernel instead. -/
def min_dim_out (t : STensor) (dim : Int) (keepdim : Bool) :
    Except TCErr MinMaxOutcome :=
  match wrapDim dim t.shape.length with
  | .error e => .error e
  | .ok d =>
      if zeroNumelCheckPass t.shape d then
        .ok (minmax_out_impl t (reducedShape t.shape d keepdim))
      else .error .emptyReductionDim

/-- Device types `mode` accepts. -/
inductive DeviceType where
  | cpu
  | cuda
  | otherDev
deriving DecidableEq

/-- A device: its type and index. -/
structure Device where
  ty : DeviceType
  idx : Nat
deriving DecidableEq

/-- A tensor as `mode_out` sees it: device, layout flag (strided or not),
dtype and shape. -/
structure MTensor where
  dev : Device
  strided : Bool
  dtype : DType
  shape : List Nat
deriving DecidableEq

/-- What `mode_out` does after validation: resize empty outputs, take the
trivial 0-dim path, or dispatch the mode kernel on wrapped dim `d`. -/
inductive ModeOutcome where
  | resizedOnly (outShape : List Nat)
  | trivialScalar
  | dispatched (d : Nat)
deriving DecidableEq

/-- `mode_out`: validates backend (CPU/CUDA, strided), output devices and
dtypes (values at input dtype, indices at the 64-bit signed integer type),
wraps the dim, then takes the empty path, the trivial 0-dim path
(external `_dimreduce_return_trivial_no_ident` contract) or the kernel. -/
def mode_out (self values indices : MTensor) (dim : Int) (keepdim : Bool) :
    Except TCErr ModeOutcome :=
  if ¬(self.dev.ty = DeviceType.cpu ∨ self.dev.ty = DeviceType.cuda) then
    .error .backendError
  else if self.strided = false then .error .backendError
  else if self.dev ≠ values.dev then .error .deviceMismatch
  else if self.dev ≠ indices.dev then .error .deviceMismatch
  else if self.dtype ≠ values.dtype then .error .dtypeMismatch
  else if indices.dtype ≠ DType.int64 then .error .dtypeMismatch
  else
    match wrapDim dim self.shape.length with
    | .error e => .error e
    | .ok d =>
        if numelList self.shape = 0 then
          .ok (.resizedOnly (reducedShape self.shape d keepdim))
        else if numelList self.shape = 1 ∧ self.shape.length = 0 then
          .ok .trivialScalar
        else .ok (.dispatched d)

/-- Modelled from the spec: the per-device brute-force membership kernel
`isin_default_stub` is not part of this source file.  Per §4.4 the mask is
pre-filled with `invert` and each element flips to `!invert` on a match:
`mask[i] = invert XOR (elements[i] ∈ test_elements)`. -/
def isin_brute_path (elements test_elements : List Int) (invert : Bool) :
    List Bool :=
  elements.map (fun e => xor invert (test_elements.contains e))

/-- Tagging of a flat list with its positions starting at `k`; `tagList`
below realises "sort, retaining the permutation" by sorting tagged pairs. -/
def zipFrom : List Int → Nat → List (Int × Nat)
  | [], _ => []
  | x :: xs, k => (x, k) :: zipFrom xs (k + 1)

/-- A list tagged with its positions, starting at 0. -/
def tagList (l : List Int) : List (Int × Nat) := zipFrom l 0

/-- Comparison on tagged values: by value only, so that the stable sort
keeps the tag order of equal values. -/
def keyLE (a b : Int × Nat) : Prop := a.1 ≤ b.1

instance : DecidableRel keyLE := fun a b => inferInstanceAs (Decidable (a.1 ≤ b.1))

instance : IsTotal (Int × Nat) keyLE := ⟨fun a b => le_total a.1 b.1⟩

instance : IsTrans (Int × Nat) keyLE := ⟨fun _ _ _ h h' => le_trans h h'⟩

/-- Adjacent-duplicate mask of the sorted sequence: every position except
the last compares to its successor (equality, or inequality under
`invert`); the last position is set to `invert`. -/
def dupMask (invert : Bool) : List (Int × Nat) → List Bool
  | [] => []
  | [_] => [invert]
  | x :: y :: rest => xor invert (x.1 == y.1) :: dupMask invert (y :: rest)

/-- The mask value scattered back to un-sorted position `p`: the
duplicate-mask entry that landed at `p`'s sorted position (the
`index_copy_` through the sort permutation). -/
def tagLookup (sorted : List (Int × Nat)) (dmask : List Bool) (p : Nat) :
    Option Bool :=
  ((sorted.zip dmask).find? (fun e => e.1.2 == p)).map (·.2)

/-- The whole scattered mask over positions `0..n-1`. -/
def scatterByTag (sorted : List (Int × Nat)) (dmask : List Bool) (n : Nat) :
    List Bool :=
  (List.range n).map (fun p => (tagLookup sorted dmask p).getD false)

/-- Unique values of a list (external `_unique(·, sorted=false)` contract:
some duplicate-free enumeration of the values). -/
def uniqueList (l : List Int) : List Int := l.dedup

/-- The inverse mapping `_unique` returns: each original position is sent
to the position of its value inside `uniqueList`. -/
def uniqueInverse (l : List Int) : List Nat :=
  l.map (fun x => (uniqueList l).indexOf x)

/-- The sort-based isin path (isin_sorting): optionally deduplicate both
operands, stably sort the tagged concatenation, build the
adjacent-duplicate mask, scatter it back through the sort permutation, and
restore the caller's original element order. -/
def isin_sorting (elements test_elements : List Int)
    (assume_unique invert : Bool) : List Bool :=
  let ef := if assume_unique then elements else uniqueList elements
  let tf := if assume_unique then test_elements else uniqueList test_elements
  let sorted := List.insertionSort keyLE (tagList (ef ++ tf))
  let dmask := dupMask invert sorted
  let mask := scatterByTag sorted dmask (ef ++ tf).length
  if assume_unique then mask.take elements.length
  else (uniqueInverse elements).map (fun i => mask.getD i false)

/-- The isin size heuristic as the source computes it: the brute-force
path is selected when `m < int64(10 · n^0.145)` — the float product is
truncated to an integer before the comparison (the real-power model treats
the double computation as exact). -/
def selectsBruteForce (n m : Nat) : Prop :=
  (m : Int) < ⌊(10 : ℝ) * (n : ℝ) ^ (0.145 : ℝ)⌋

/-- Success test for a mask computation. -/
def isOkResult : Except TCErr (List Bool) → Bool
  | .ok _ => true
  | .error _ => false

/-- A scalar whose isNaN test succeeds is the NaN value. -/
theorem FP.eq_nan_of_isNaN (x : FP) (h : x.isNaN = true) : x = FP.nan := by
  cases x <;> simp [FP.isNaN] at h ⊢

/-- C9: one-sided array-bound clamp is exactly the corresponding
elementwise primitive — `clamp` with only a lower bound and
`clamp_min.Tensor` dispatch the same `maximum` kernel as the `maximum`
primitive, and `clamp` with only an upper bound and `clamp_max.Tensor`
the same `minimum` kernel as the `minimum` primitive, for every kernel
environment. -/
theorem clamp_tensor_one_sided_delegates (env : BinKernels)
    (self lo hi : List FP) :
    clamp_Tensor_out env self (some lo) none = maximum_op env self lo
    ∧ clamp_Tensor_out env self none (some hi) = minimum_op env self hi
    ∧ clamp_min_Tensor_out env self lo = maximum_op env self lo
    ∧ clamp_max_Tensor_out env self hi = minimum_op env self hi :=
  ⟨rfl, rfl, rfl, rfl⟩

/-- C10: the clip entry points are pure aliases of the clamp entry points —
for every combination of dtype, data, optional scalar or tensor bounds and
in-place flag they forward all arguments unchanged, returning the same
results and the same errors. -/
theorem clip_is_clamp_alias (env : BinKernels) (selfDT : DType)
    (self : List FP) (mn mx : Option ScalarV) (tmn tmx : Option (List FP))
    (inplace : Bool) :
    clip_op selfDT self mn mx inplace = clamp_op selfDT self mn mx inplace
    ∧ clip_Tensor_op env selfDT self tmn tmx
        = clamp_Tensor_op env selfDT self tmn tmx :=
  ⟨rfl, rfl⟩

/-- C2 (amended): a NaN scalar bound causes a wholesale NaN fill with no
per-element kernel for two-sided scalar clamp (either bound NaN) and for
the clamp_max / clamp_min operations; the filled output is all NaN.  (The
one-bound form of `clamp` itself instead dispatches the one-sided kernel;
see the counterexample.) -/
theorem clamp_scalar_nan_bound_fills (rt : DType) (self : List FP)
    (a b mn mx : ScalarV)
    (hab : a.val.isNaN = true ∨ b.val.isNaN = true)
    (hmx : mx.val.isNaN = true) (hmn : mn.val.isNaN = true) :
    clamp_out rt self (some a) (some b) = .filled (self.map fun _ => FP.nan)
    ∧ clamp_max_out rt self mx = .filled (self.map fun _ => FP.nan)
    ∧ clamp_min_out rt self mn = .filled (self.map fun _ => FP.nan)
    ∧ (self.map fun _ => FP.nan).all FP.isNaN = true := by
  refine ⟨?_, ?_, ?_, ?_⟩
  · rcases hab with h | h <;> simp [clamp_out, h]
  · have hv : mx.val = FP.nan := FP.eq_nan_of_isNaN _ hmx
    simp [clamp_max_out, hv, FP.isNaN]
  · have hv : mn.val = FP.nan := FP.eq_nan_of_isNaN _ hmn
    simp [clamp_min_out, hv, FP.isNaN]
  · simp [List.all_eq_true, FP.isNaN]

/-- C2 witness: concrete application of `clamp_scalar_nan_bound_fills`. -/
theorem clamp_scalar_nan_bound_fills_witness :
    ((ScalarV.mk SCat.floatS FP.nan).val.isNaN = true
      ∨ (ScalarV.mk SCat.floatS (FP.num 0)).val.isNaN = true)
    ∧ (clamp_out DType.float [FP.num 3]
          (some ⟨SCat.floatS, FP.nan⟩) (some ⟨SCat.floatS, FP.num 0⟩)
        = .filled ([FP.num 3].map fun _ => FP.nan)
      ∧ clamp_max_out DType.float [FP.num 3] ⟨SCat.floatS, FP.nan⟩
        = .filled ([FP.num 3].map fun _ => FP.nan)
      ∧ clamp_min_out DType.float [FP.num 3] ⟨SCat.floatS, FP.nan⟩
        = .filled ([FP.num 3].map fun _ => FP.nan)
      ∧ ([FP.num 3].map fun _ => FP.nan).all FP.isNaN = true) :=
  ⟨Or.inl (by decide),
   clamp_scalar_nan_bound_fills DType.float [FP.num 3] ⟨SCat.floatS, FP.nan⟩
     ⟨SCat.floatS, FP.num 0⟩ ⟨SCat.floatS, FP.nan⟩ ⟨SCat.floatS, FP.nan⟩
     (Or.inl (by decide)) (by decide) (by decide)⟩

/-- C2 counterexample: `clamp` called with only one bound, that bound NaN,
does not fill the output wholesale — it dispatches the one-sided kernel. -/
theorem clamp_one_sided_nan_dispatches_kernel :
    clamp_out DType.float [FP.num 1] (some ⟨SCat.floatS, FP.nan⟩) none
      = ClampOutcome.minKernel DType.float ⟨SCat.floatS, FP.nan⟩
    ∧ (clamp_out DType.float [FP.num 1]
        (some ⟨SCat.floatS, FP.nan⟩) none).isFilled = false := by
  exact ⟨rfl, rfl⟩

/-- Folding max over categories that never exceed the accumulator leaves
it unchanged. -/
theorem foldl_max_cat_of_le (l : List SCat) (a : Nat)
    (h : ∀ s ∈ l, s.cat ≤ a) :
    l.foldl (fun acc s => max acc s.cat) a = a := by
  induction l with
  | nil => rfl
  | cons x xs ih =>
      have hx : max a x.cat = a := max_eq_left (h x (List.mem_cons_self x xs))
      simpa [hx] using ih (fun s hs => h s (List.mem_cons_of_mem x hs))

/-- Promotion over bounds that do not outrank `self` keeps self's dtype. -/
theorem promoteClampDtype_eq_self (self : DType) (bounds : List SCat)
    (h : ∀ s ∈ bounds, s.cat ≤ self.cat) :
    promoteClampDtype self bounds = self := by
  simp [promoteClampDtype, foldl_max_cat_of_le bounds self.cat h]

/-- Scalar categories never exceed the complex category. -/
theorem scat_le_three (s : SCat) : s.cat ≤ 3 := by
  cases s <;> simp [SCat.cat]

/-- A complex dtype sits at the top promotion category. -/
theorem DType.cat_of_complex (d : DType) (h : d.isComplexT = true) :
    d.cat = 3 := by
  cases d <;> simp_all [DType.isComplexT, DType.cat]

/-- A floating dtype is not complex. -/
theorem DType.not_complex_of_floating (d : DType)
    (h : d.isFloatingPoint = true) : d.isComplexT = false := by
  cases d <;> simp_all [DType.isFloatingPoint, DType.isComplexT]

/-- C6: for each in-place scalar-bound clamp variant with a non-floating
`self`, a promotion result differing from self's dtype makes the meta step
fail with the UnsafeCast error (so the impl step never runs and nothing is
mutated); with a floating `self` promotion is skipped and no such failure
can occur. -/
theorem clamp_inplace_promotion_guard (selfDT selfF : DType)
    (mn mx : Option SCat) (b : SCat) (ip : Bool)
    (hnf : selfDT.isFloatingPoint = false)
    (hf : selfF.isFloatingPoint = true) :
    (promoteClampDtype selfDT (mn.toList ++ mx.toList) ≠ selfDT →
      clamp_meta selfDT mn mx true = .error .castError)
    ∧ (b ≠ SCat.complexS → promoteClampDtype selfDT [b] ≠ selfDT →
        clamp_max_meta selfDT b true = .error .castError
        ∧ clamp_min_meta selfDT b true = .error .castError)
    ∧ clamp_meta selfF mn mx ip ≠ .error .castError
    ∧ clamp_max_meta selfF b ip ≠ .error .castError
    ∧ clamp_min_meta selfF b ip ≠ .error .castError := by
  have hcompl : ∀ bounds : List SCat,
      promoteClampDtype selfDT bounds ≠ selfDT → selfDT.isComplexT = false := by
    intro bounds hne
    by_contra h
    have h3 : selfDT.cat = 3 :=
      DType.cat_of_complex selfDT (by revert h; cases selfDT.isComplexT <;> simp)
    exact hne (promoteClampDtype_eq_self _ _ (fun s _ => by
      rw [h3]; exact scat_le_three s))
  have hcf : selfF.isComplexT = false := DType.not_complex_of_floating selfF hf
  refine ⟨?_, ?_, ?_, ?_, ?_⟩
  · intro hne
    have hc := hcompl _ hne
    have hsome : (mn.isNone && mx.isNone) = false := by
      by_contra h
      have hb : mn = none ∧ mx = none := by
        cases mn <;> cases mx <;> simp_all
      rw [hb.1, hb.2] at hne
      exact hne (promoteClampDtype_eq_self _ _ (by simp))
    simp [clamp_meta, hsome, hc, hnf, hne]
  · intro hb hne
    have hc := hcompl _ hne
    constructor
    · simp [clamp_max_meta, hc, hb, hnf, hne]
    · simp [clamp_min_meta, hc, hb, hnf, hne]
  · simp only [clamp_meta, hcf, hf, Bool.not_true, Bool.false_eq_true,
      if_false]
    split_ifs <;> simp
  · simp only [clamp_max_meta, hcf, hf, Bool.not_true, Bool.false_eq_true,
      if_false]
    split_ifs <;> simp
  · simp only [clamp_min_meta, hcf, hf, Bool.not_true, Bool.false_eq_true,
      if_false]
    split_ifs <;> simp

/-- C6 witness: concrete application of `clamp_inplace_promotion_guard` —
an int32 tensor clamped in place against a float scalar bound fails with
the UnsafeCast error; a float tensor never does. -/
theorem clamp_inplace_promotion_guard_witness :
    DType.isFloatingPoint .int32 = false
    ∧ DType.isFloatingPoint .float = true
    ∧ clamp_meta .int32 (some .floatS) none true = .error .castError
    ∧ clamp_max_meta .int32 .floatS true = .error .castError := by
  have h := clamp_inplace_promotion_guard .int32 .float (some .floatS) none
    .floatS true (by decide) (by decide)
  exact ⟨by decide, by decide, h.1 (by decide),
    (h.2.1 (by decide) (by decide)).1⟩

/-- C7: isclose validates eagerly, before any mask computation — dtype
mismatch, quantized operands and negative tolerances each produce the
corresponding error (in that order), and the computation succeeds exactly
when all the checks pass. -/
theorem isclose_validates_eagerly (a b : ATensor) (rtol atol : ℚ)
    (en : Bool) :
    (a.dtype ≠ b.dtype → isclose a b rtol atol en = .error .dtypeMismatch)
    ∧ (a.dtype = b.dtype → (a.quantized = true ∨ b.quantized = true) →
        isclose a b rtol atol en = .error .unsupportedType)
    ∧ (a.dtype = b.dtype → a.quantized = false → b.quantized = false →
        (rtol < 0 ∨ atol < 0) →
        isclose a b rtol atol en = .error .invalidArgument)
    ∧ (isOkResult (isclose a b rtol atol en) = true ↔
        (a.dtype = b.dtype ∧ a.quantized = false ∧ b.quantized = false
          ∧ 0 ≤ rtol ∧ 0 ≤ atol)) := by
  have p1 : a.dtype ≠ b.dtype →
      isclose a b rtol atol en = .error .dtypeMismatch := by
    intro h
    simp [isclose, h]
  have p2 : a.dtype = b.dtype → (a.quantized = true ∨ b.quantized = true) →
      isclose a b rtol atol en = .error .unsupportedType := by
    intro h hq
    rcases hq with hq | hq <;> simp [isclose, h, hq]
  have p3 : a.dtype = b.dtype → a.quantized = false → b.quantized = false →
      (rtol < 0 ∨ atol < 0) →
      isclose a b rtol atol en = .error .invalidArgument := by
    intro h h1 h2 hr
    unfold isclose
    rw [if_neg (by simp [h]), if_neg (by simp [h1, h2])]
    rcases hr with hr | hr
    · rw [if_pos hr]
    · by_cases hrt : rtol < 0
      · rw [if_pos hrt]
      · rw [if_neg hrt, if_pos hr]
  refine ⟨p1, p2, p3, ?_⟩
  constructor
  · intro hok
    have h1 : a.dtype = b.dtype := by
      by_contra h
      rw [p1 h] at hok
      simp [isOkResult] at hok
    have h2 : a.quantized = false := by
      by_contra h
      have ht : a.quantized = true := by revert h; cases a.quantized <;> simp
      rw [p2 h1 (Or.inl ht)] at hok
      simp [isOkResult] at hok
    have h3 : b.quantized = false := by
      by_contra h
      have ht : b.quantized = true := by revert h; cases b.quantized <;> simp
      rw [p2 h1 (Or.inr ht)] at hok
      simp [isOkResult] at hok
    have h4 : 0 ≤ rtol := by
      by_contra h
      rw [p3 h1 h2 h3 (Or.inl (not_le.mp h))] at hok
      simp [isOkResult] at hok
    have h5 : 0 ≤ atol := by
      by_contra h
      rw [p3 h1 h2 h3 (Or.inr (not_le.mp h))] at hok
      simp [isOkResult] at hok
    exact ⟨h1, h2, h3, h4, h5⟩
  · rintro ⟨h1, h2, h3, h4, h5⟩
    unfold isclose
    rw [if_neg (by simp [h1]), if_neg (by simp [h2, h3]),
      if_neg (not_lt.mpr h4), if_neg (not_lt.mpr h5)]
    by_cases hz : rtol = 0 ∧ atol = 0
    · simp [hz, isOkResult]
    · simp [hz, isOkResult]

/-- C7 witness: concrete applications of `isclose_validates_eagerly`. -/
theorem isclose_validates_eagerly_witness :
    isclose ⟨.float, false, []⟩ ⟨.double, false, []⟩ 1 1 false
      = .error .dtypeMismatch
    ∧ isclose ⟨.float, true, []⟩ ⟨.float, false, []⟩ 1 1 false
      = .error .unsupportedType
    ∧ isclose ⟨.float, false, []⟩ ⟨.float, false, []⟩ (-1) 0 false
      = .error .invalidArgument :=
  ⟨(isclose_validates_eagerly ⟨.float, false, []⟩ ⟨.double, false, []⟩ 1 1
      false).1 (by decide),
   (isclose_validates_eagerly ⟨.float, true, []⟩ ⟨.float, false, []⟩ 1 1
      false).2.1 rfl (Or.inl rfl),
   (isclose_validates_eagerly ⟨.float, false, []⟩ ⟨.float, false, []⟩ (-1) 0
      false).2.2.1 rfl rfl rfl (Or.inl (by norm_num))⟩

/-- C8: `mode_out` with explicit output buffers (on a supported strided
backend) fails with the device-mismatch error when either buffer's device
differs from the input's, with the dtype-mismatch error when the values
buffer's dtype differs from the input dtype or the indices buffer's dtype
is not the 64-bit signed integer type — and it reaches a non-error outcome
only when all these checks pass, so nothing is dispatched on failure. -/
theorem mode_out_validates (self values indices : MTensor) (dim : Int)
    (keepdim : Bool)
    (hdev : self.dev.ty = DeviceType.cpu ∨ self.dev.ty = DeviceType.cuda)
    (hlay : self.strided = true) :
    (values.dev ≠ self.dev ∨ indices.dev ≠ self.dev →
      mode_out self values indices dim keepdim = .error .deviceMismatch)
    ∧ (self.dev = values.dev → self.dev = indices.dev →
        values.dtype ≠ self.dtype →
        mode_out self values indices dim keepdim = .error .dtypeMismatch)
    ∧ (self.dev = values.dev → self.dev = indices.dev →
        self.dtype = values.dtype → indices.dtype ≠ DType.int64 →
        mode_out self values indices dim keepdim = .error .dtypeMismatch)
    ∧ (∀ r, mode_out self values indices dim keepdim = .ok r →
        self.dev = values.dev ∧ self.dev = indices.dev
        ∧ self.dtype = values.dtype ∧ indices.dtype = DType.int64) := by
  have hlay' : ¬self.strided = false := by simp [hlay]
  refine ⟨?_, ?_, ?_, ?_⟩
  · intro h
    unfold mode_out
    rw [if_neg (not_not_intro hdev), if_neg hlay']
    by_cases hv : self.dev = values.dev
    · have hi : self.dev ≠ indices.dev := by
        rcases h with h | h
        · exact absurd hv.symm h
        · exact fun he => h he.symm
      rw [if_neg (not_ne_iff.mpr hv), if_pos hi]
    · rw [if_pos hv]
  · intro hv hi hd
    have hd' : self.dtype ≠ values.dtype := fun he => hd he.symm
    unfold mode_out
    rw [if_neg (not_not_intro hdev), if_neg hlay', if_neg (not_ne_iff.mpr hv),
      if_neg (not_ne_iff.mpr hi), if_pos hd']
  · intro hv hi hd hidx
    unfold mode_out
    rw [if_neg (not_not_intro hdev), if_neg hlay', if_neg (not_ne_iff.mpr hv),
      if_neg (not_ne_iff.mpr hi), if_neg (not_ne_iff.mpr hd), if_pos hidx]
  · intro r hr
    unfold mode_out at hr
    rw [if_neg (not_not_intro hdev), if_neg hlay'] at hr
    by_cases hv : self.dev ≠ values.dev
    · rw [if_pos hv] at hr
      simp at hr
    · rw [if_neg hv] at hr
      by_cases hi : self.dev ≠ indices.dev
      · rw [if_pos hi] at hr
        simp at hr
      · rw [if_neg hi] at hr
        by_cases hd : self.dtype ≠ values.dtype
        · rw [if_pos hd] at hr
          simp at hr
        · rw [if_neg hd] at hr
          by_cases hx : indices.dtype ≠ DType.int64
          · rw [if_pos hx] at hr
            simp at hr
          · exact ⟨not_ne_iff.mp hv, not_ne_iff.mp hi, not_ne_iff.mp hd,
              not_ne_iff.mp hx⟩

/-- C8 witness: concrete applications of `mode_out_validates`. -/
theorem mode_out_validates_witness :
    mode_out ⟨⟨.cpu, 0⟩, true, .float, [2]⟩ ⟨⟨.cuda, 0⟩, true, .float, [2]⟩
        ⟨⟨.cpu, 0⟩, true, .int64, [2]⟩ 0 false = .error .deviceMismatch
    ∧ mode_out ⟨⟨.cpu, 0⟩, true, .float, [2]⟩ ⟨⟨.cpu, 0⟩, true, .double, [2]⟩
        ⟨⟨.cpu, 0⟩, true, .int64, [2]⟩ 0 false = .error .dtypeMismatch
    ∧ mode_out ⟨⟨.cpu, 0⟩, true, .float, [2]⟩ ⟨⟨.cpu, 0⟩, true, .float, [2]⟩
        ⟨⟨.cpu, 0⟩, true, .int32, [2]⟩ 0 false = .error .dtypeMismatch :=
  ⟨(mode_out_validates ⟨⟨.cpu, 0⟩, true, .float, [2]⟩
      ⟨⟨.cuda, 0⟩, true, .float, [2]⟩ ⟨⟨.cpu, 0⟩, true, .int64, [2]⟩ 0 false
      (Or.inl rfl) rfl).1 (Or.inl (by decide)),
   (mode_out_validates ⟨⟨.cpu, 0⟩, true, .float, [2]⟩
      ⟨⟨.cpu, 0⟩, true, .double, [2]⟩ ⟨⟨.cpu, 0⟩, true, .int64, [2]⟩ 0 false
      (Or.inl rfl) rfl).2.1 rfl rfl (by decide),
   (mode_out_validates ⟨⟨.cpu, 0⟩, true, .float, [2]⟩
      ⟨⟨.cpu, 0⟩, true, .float, [2]⟩ ⟨⟨.cpu, 0⟩, true, .int32, [2]⟩ 0 false
      (Or.inl rfl) rfl).2.2.1 rfl rfl rfl (by decide)⟩

/-- C4 (amended): for min/max-with-indices, (1) an input with numel 0 that
passes the empty-reduced-dimension check invokes no reduction kernel — the
outputs are merely resized to the reduced shape; (2) for a rank-0 input
(the sole case with numel 1 the fast path accepts) the values output is
filled with the sole element and the indices output with 0, without the
general kernel.  (A rank-1 single-element input takes the general kernel;
see the counterexample.) -/
theorem minmax_empty_and_scalar_paths (sh : List Nat) (da : List Int)
    (dim : Int) (keepdim : Bool) (d : Nat)
    (hw : wrapDim dim sh.length = .ok d)
    (hchk : zeroNumelCheckPass sh d = true) :
    (numelList sh = 0 →
      max_dim_out ⟨sh, da⟩ dim keepdim
          = .ok (.resizedOnly (reducedShape sh d keepdim))
      ∧ min_dim_out ⟨sh, da⟩ dim keepdim
          = .ok (.resizedOnly (reducedShape sh d keepdim)))
    ∧ (sh = [] →
      max_dim_out ⟨sh, da⟩ dim keepdim
          = .ok (.trivialFill (reducedShape sh d keepdim) (da.headD 0) 0)
      ∧ min_dim_out ⟨sh, da⟩ dim keepdim
          = .ok (.trivialFill (reducedShape sh d keepdim) (da.headD 0) 0)) := by
  constructor
  · intro h0
    constructor
    · simp [max_dim_out, hw, hchk, minmax_out_impl, h0]
    · simp [min_dim_out, hw, hchk, minmax_out_impl, h0]
  · intro hsh
    subst hsh
    simp only [List.length_nil] at hw
    constructor
    · simp [max_dim_out, hw, hchk, minmax_out_impl, numelList]
    · simp [min_dim_out, hw, hchk, minmax_out_impl, numelList]

/-- C4 witness: concrete applications of `minmax_empty_and_scalar_paths`
to an empty input of shape [0,2] reduced along dim 1 and to a rank-0
input. -/
theorem minmax_empty_and_scalar_paths_witness :
    (max_dim_out ⟨[0, 2], []⟩ 1 false = .ok (.resizedOnly [0])
      ∧ min_dim_out ⟨[0, 2], []⟩ 1 false = .ok (.resizedOnly [0]))
    ∧ (max_dim_out ⟨[], [7]⟩ 0 false = .ok (.trivialFill [] 7 0)
      ∧ min_dim_out ⟨[], [7]⟩ 0 false = .ok (.trivialFill [] 7 0)) :=
  ⟨(minmax_empty_and_scalar_paths [0, 2] [] 1 false 1 (by decide)
      (by decide)).1 (by decide),
   (minmax_empty_and_scalar_paths [] [7] 0 false 0 (by decide)
      (by decide)).2 rfl⟩

/-- C4 counterexample: a single-element input of rank 1 (shape [1], so its
reduction along dim 0 without keepdim has rank 0 and numel is 1) is not
handled by the fill fast path — the general reduction kernel is
dispatched. -/
theorem minmax_singleton_rank_one_dispatches_kernel :
    max_dim_out ⟨[1], [7]⟩ 0 false = .ok (.kernel [])
    ∧ (MinMaxOutcome.kernel []).isGeneralKernel = true
    ∧ numelList [1] = 1 ∧ rankAfterReduction [1] 0 false = 0 := by
  decide

/-- Raising the heuristic power to the 200th power clears the fractional
exponent: `(2^0.145)^200 = 2^29`. -/
theorem two_rpow_pow200 : ((2 : ℝ) ^ (0.145 : ℝ)) ^ (200 : ℕ) = (2 : ℝ) ^ (29 : ℕ) := by
  rw [← Real.rpow_natCast ((2 : ℝ) ^ (0.145 : ℝ)) 200,
    ← Real.rpow_mul (by norm_num : (0 : ℝ) ≤ 2)]
  norm_num

/-- Lower bound on the heuristic power: `1.1 < 2^0.145`. -/
theorem two_rpow_lower : (1.1 : ℝ) < (2 : ℝ) ^ (0.145 : ℝ) := by
  by_contra hc
  push_neg at hc
  have h0 : (0 : ℝ) ≤ (2 : ℝ) ^ (0.145 : ℝ) := Real.rpow_nonneg (by norm_num) _
  have hp := pow_le_pow_left h0 hc 200
  rw [two_rpow_pow200] at hp
  norm_num at hp

/-- Upper bound on the heuristic power: `2^0.145 < 1.2`. -/
theorem two_rpow_upper : (2 : ℝ) ^ (0.145 : ℝ) < (1.2 : ℝ) := by
  by_contra hc
  push_neg at hc
  have hp := pow_le_pow_left (by norm_num : (0 : ℝ) ≤ 1.2) hc 200
  rw [two_rpow_pow200] at hp
  norm_num at hp

/-- C3 (amended): for a non-empty elements operand, the array/array isin
selects the brute-force path exactly when `m + 1 ≤ 10 · n^0.145` in real
arithmetic — equivalently, when `m` is strictly below the float product
truncated to an integer, which is how the source compares. -/
theorem isin_heuristic_selects_brute (n m : Nat) (h : 0 < n) :
    selectsBruteForce n m ↔ ((m : ℝ) + 1 ≤ 10 * (n : ℝ) ^ (0.145 : ℝ)) := by
  unfold selectsBruteForce
  rw [Int.lt_iff_add_one_le, Int.le_floor]
  push_cast
  constructor <;> intro h' <;> linarith

/-- C3 witness: concrete application of `isin_heuristic_selects_brute`. -/
theorem isin_heuristic_selects_brute_witness :
    0 < 5 ∧ (selectsBruteForce 5 2 ↔
      ((2 : ℝ) + 1 ≤ 10 * (5 : ℝ) ^ (0.145 : ℝ))) :=
  ⟨by decide, isin_heuristic_selects_brute 5 2 (by decide)⟩

/-- C3 counterexample: at n = 2 elements and m = 11 test elements the
claim's condition `m < 10 · n^0.145` holds (11 < 11.057…), yet the code
selects the sort-based path, because it first truncates `10 · 2^0.145` to
the integer 11 and `11 < 11` fails. -/
theorem isin_heuristic_cex :
    ¬ selectsBruteForce 2 11 ∧ (11 : ℝ) < 10 * (2 : ℝ) ^ (0.145 : ℝ) := by
  constructor
  · unfold selectsBruteForce
    rw [not_lt]
    push_cast
    have h12 : 10 * (2 : ℝ) ^ (0.145 : ℝ) < ((12 : ℤ) : ℝ) := by
      have := two_rpow_upper
      push_cast
      nlinarith
    have hfl : ⌊10 * (2 : ℝ) ^ (0.145 : ℝ)⌋ < 12 := Int.floor_lt.mpr h12
    omega
  · have := two_rpow_lower
    nlinarith

/-- Fusing the equality mask with the NaN-match OR into one elementwise
pass. -/
theorem zipWith_or_nanmask (l1 l2 : List FP) :
    List.zipWith (fun c (p : FP × FP) => c || (p.1.isNaN && p.2.isNaN))
      (List.zipWith feq l1 l2) (l1.zip l2)
    = List.zipWith (fun x y => feq x y || (x.isNaN && y.isNaN)) l1 l2 := by
  induction l1 generalizing l2 with
  | nil => simp
  | cons x xs ih =>
      cases l2 with
      | nil => simp
      | cons y ys => simp [ih]

/-- On NaN-free left operands the NaN-match disjunct is vacuous. -/
theorem zipWith_nanfree (l1 l2 : List FP)
    (h : ∀ u ∈ l1, u.isNaN = false) :
    List.zipWith (fun x y => feq x y || (x.isNaN && y.isNaN)) l1 l2
    = List.zipWith feq l1 l2 := by
  induction l1 generalizing l2 with
  | nil => simp
  | cons x xs ih =>
      cases l2 with
      | nil => simp
      | cons y ys =>
          have hx := h x (List.mem_cons_self x xs)
          simp [hx, ih ys (fun u hu => h u (List.mem_cons_of_mem x hu))]

/-- Every value equals itself or is NaN-matched against itself. -/
theorem feq_self_or_nan (u : FP) : (feq u u || (u.isNaN && u.isNaN)) = true := by
  cases u <;> simp [feq, FP.isNaN]

/-- The equality-or-NaN-match mask of a list against itself is all-true. -/
theorem zipWith_diag_true (l : List FP) :
    List.zipWith (fun x y => feq x y || (x.isNaN && y.isNaN)) l l
    = List.replicate l.length true := by
  induction l with
  | nil => rfl
  | cons x xs ih =>
      rw [List.zipWith_cons_cons, feq_self_or_nan x, ih, List.length_cons,
        List.replicate_succ]

/-- A NaN value does not equal itself. -/
theorem feq_self_of_nan (u : FP) (h : u.isNaN = true) : feq u u = false := by
  cases u <;> simp_all [feq, FP.isNaN]

/-- Positionwise view of the diagonal equality mask. -/
theorem zipWith_feq_diag_get (l : List FP) (i : Nat) (hi : i < l.length) :
    (List.zipWith feq l l).get? i
      = some (feq (l.getD i FP.nan) (l.getD i FP.nan)) := by
  induction l generalizing i with
  | nil => simp at hi
  | cons x xs ih =>
      cases i with
      | zero => simp
      | succ j =>
          simp only [List.zipWith_cons_cons, List.get?_cons_succ,
            List.getD_cons_succ]
          exact ih j (by simpa using Nat.lt_of_succ_lt_succ hi)

/-- With zero tolerances isclose returns the equality+NaN-match mask the
specification describes (shared helper for the C5 theorem). -/
theorem isclose_zero_tol_eq (a b : ATensor) (en : Bool)
    (h1 : a.dtype = b.dtype) (h2 : a.quantized = false)
    (h3 : b.quantized = false) (hw : wfData a) :
    isclose a b 0 0 en = .ok (closeMaskSpec a b en) := by
  unfold isclose
  rw [if_neg (by simp [h1]), if_neg (by simp [h2, h3]),
    if_neg (by norm_num), if_neg (by norm_num)]
  simp only [and_self, if_pos (⟨rfl, rfl⟩ : (0 : ℚ) = 0 ∧ (0 : ℚ) = 0)]
  cases en with
  | false => simp [closeMaskSpec]
  | true =>
      by_cases hf : (a.dtype.isFloatingPoint || a.dtype.isComplexT) = true
      · simp only [hf, Bool.true_and, if_pos rfl]
        rw [zipWith_or_nanmask]
        simp [closeMaskSpec]
      · have hff : (a.dtype.isFloatingPoint || a.dtype.isComplexT) = false := by
          revert hf
          cases a.dtype.isFloatingPoint || a.dtype.isComplexT <;> simp
        have hnn : ∀ u ∈ a.data, u.isNaN = false := by
          rcases hw with hw | hw
          · exfalso
            rw [hw] at hff
            simp at hff
          · intro u hu
            have := List.all_eq_true.mp hw u hu
            simpa using this
        simp only [hff, Bool.and_false, Bool.false_eq_true, if_false,
          closeMaskSpec, Bool.true_and]
        rw [zipWith_nanfree a.data b.data hnn]
        simp

/-- C5: with zero tolerances, isclose on same-dtype non-quantized operands
returns exactly the equality mask ORed with the NaN-match mask when
`equal_nan` is set (the error branch is skipped); consequently isclose of
any well-formed x against itself with zero tolerances and equal_nan is
all-true even in the presence of NaNs, and with equal_nan false the NaN
positions are false. -/
theorem isclose_zero_tolerance (a b x : ATensor) (en : Bool) (i : Nat)
    (h1 : a.dtype = b.dtype) (h2 : a.quantized = false)
    (h3 : b.quantized = false) (hwa : wfData a) (hx1 : x.quantized = false)
    (hx2 : wfData x) :
    isclose a b 0 0 en = .ok (closeMaskSpec a b en)
    ∧ isclose x x 0 0 true = .ok (List.replicate x.data.length true)
    ∧ ((x.data.getD i FP.nan).isNaN = true → i < x.data.length →
        maskGet (isclose x x 0 0 false) i = some false) := by
  refine ⟨isclose_zero_tol_eq a b en h1 h2 h3 hwa, ?_, ?_⟩
  · rw [isclose_zero_tol_eq x x true rfl hx1 hx1 hx2]
    have : closeMaskSpec x x true = List.replicate x.data.length true := by
      simp only [closeMaskSpec, Bool.true_and]
      exact zipWith_diag_true x.data
    rw [this]
  · intro hnan hi
    rw [isclose_zero_tol_eq x x false rfl hx1 hx1 hx2]
    simp only [maskGet]
    have hspec : closeMaskSpec x x false = List.zipWith feq x.data x.data := by
      simp [closeMaskSpec]
    rw [hspec, zipWith_feq_diag_get x.data i hi, feq_self_of_nan _ hnan]

/-- C5 witness: concrete application of `isclose_zero_tolerance` to a
one-element NaN array. -/
theorem isclose_zero_tolerance_witness :
    wfData ⟨DType.float, false, [FP.nan]⟩
    ∧ isclose ⟨DType.float, false, [FP.num 1]⟩ ⟨DType.float, false, [FP.num 2]⟩
        0 0 true
        = .ok (closeMaskSpec ⟨DType.float, false, [FP.num 1]⟩
            ⟨DType.float, false, [FP.num 2]⟩ true)
    ∧ isclose ⟨DType.float, false, [FP.nan]⟩ ⟨DType.float, false, [FP.nan]⟩
        0 0 true = .ok (List.replicate ([FP.nan] : List FP).length true)
    ∧ maskGet (isclose ⟨DType.float, false, [FP.nan]⟩
        ⟨DType.float, false, [FP.nan]⟩ 0 0 false) 0 = some false := by
  have h := isclose_zero_tolerance ⟨DType.float, false, [FP.num 1]⟩
    ⟨DType.float, false, [FP.num 2]⟩ ⟨DType.float, false, [FP.nan]⟩ true 0
    rfl rfl rfl (Or.inl rfl) rfl (Or.inl rfl)
  exact ⟨Or.inl rfl, h.1, h.2.1, h.2.2 (by decide) (by decide)⟩

/-- Unfolding equation for `zipFrom` on a cons cell. -/
theorem zipFrom_cons (x : Int) (xs : List Int) (k : Nat) :
    zipFrom (x :: xs) k = (x, k) :: zipFrom xs (k + 1) := rfl

/-- `zipFrom` preserves length. -/
theorem zipFrom_length (l : List Int) (k : Nat) :
    (zipFrom l k).length = l.length := by
  induction l generalizing k with
  | nil => rfl
  | cons x xs ih => simp [zipFrom_cons, ih]

/-- The values of a tagged list are the original list. -/
theorem zipFrom_map_fst (l : List Int) (k : Nat) :
    (zipFrom l k).map Prod.fst = l := by
  induction l generalizing k with
  | nil => rfl
  | cons x xs ih => simp [zipFrom_cons, ih]

/-- Tagging distributes over append, shifting the start tag. -/
theorem zipFrom_append (l1 l2 : List Int) (k : Nat) :
    zipFrom (l1 ++ l2) k = zipFrom l1 k ++ zipFrom l2 (k + l1.length) := by
  induction l1 generalizing k with
  | nil => simp [zipFrom]
  | cons x xs ih =>
      rw [List.cons_append, zipFrom_cons, ih, zipFrom_cons]
      have harith : k + 1 + xs.length = k + (x :: xs).length := by
        simp
        omega
      rw [harith]
      rfl

/-- Positionwise description of a tagged list. -/
theorem zipFrom_get? (l : List Int) (k i : Nat) (hi : i < l.length) :
    (zipFrom l k).get? i = some (l.get ⟨i, hi⟩, k + i) := by
  induction l generalizing k i with
  | nil => cases hi
  | cons x xs ih =>
      cases i with
      | zero => rfl
      | succ j =>
          have hj : j < xs.length := Nat.lt_of_succ_lt_succ hi
          rw [zipFrom_cons, List.get?_cons_succ, ih (k + 1) j hj]
          have harith : k + 1 + j = k + (j + 1) := by omega
          rw [harith]
          rfl

/-- Tags of a tagged list lie in `[k, k + length)`. -/
theorem mem_zipFrom_snd (l : List Int) (k : Nat) :
    ∀ e ∈ zipFrom l k, k ≤ e.2 ∧ e.2 < k + l.length := by
  induction l generalizing k with
  | nil => simp [zipFrom]
  | cons x xs ih =>
      intro e he
      rw [zipFrom_cons, List.mem_cons] at he
      rcases he with he | he
      · rw [he]
        simp only [List.length_cons]
        omega
      · have h2 := ih (k + 1) e he
        simp only [List.length_cons]
        omega

/-- The tags of a tagged list are distinct. -/
theorem zipFrom_snd_nodup (l : List Int) (k : Nat) :
    ((zipFrom l k).map Prod.snd).Nodup := by
  induction l generalizing k with
  | nil => simp [zipFrom]
  | cons x xs ih =>
      rw [zipFrom_cons, List.map_cons, List.nodup_cons]
      refine ⟨?_, ih (k + 1)⟩
      intro hmem
      obtain ⟨e, he, hee⟩ := List.mem_map.mp hmem
      have := (mem_zipFrom_snd xs (k + 1) e he).1
      omega

/-- No tagged entry carries an absent value. -/
theorem filter_zipFrom_nil_iff (v : Int) (l : List Int) (k : Nat) :
    ((zipFrom l k).filter (fun e => e.1 == v) = []) ↔ v ∉ l := by
  rw [List.filter_eq_nil]
  constructor
  · intro h hv
    obtain ⟨⟨i, hi⟩, hget⟩ := List.mem_iff_get.mp hv
    have hmem : (l.get ⟨i, hi⟩, k + i) ∈ zipFrom l k :=
      List.get?_mem (zipFrom_get? l k i hi)
    have := h _ hmem
    rw [hget] at this
    simp at this
  · intro h e he hev
    have hfst : e.1 ∈ (zipFrom l k).map Prod.fst := List.mem_map_of_mem Prod.fst he
    rw [zipFrom_map_fst] at hfst
    rw [beq_iff_eq] at hev
    exact h (hev ▸ hfst)

/-- In a duplicate-free list the unique entry carrying value `v` is the
one at `v`'s position. -/
theorem filter_zipFrom_single (v : Int) (l : List Int) (k p : Nat)
    (hnd : l.Nodup) (hp : p < l.length) (hv : l.get ⟨p, hp⟩ = v) :
    (zipFrom l k).filter (fun e => e.1 == v) = [(v, k + p)] := by
  induction l generalizing k p with
  | nil => cases hp
  | cons x xs ih =>
      rw [zipFrom_cons, List.filter_cons]
      cases p with
      | zero =>
          have hx : x = v := hv
          have hnotin : v ∉ xs := by
            rw [← hx]
            exact (List.nodup_cons.mp hnd).1
          rw [if_pos (by simp [hx])]
          rw [(filter_zipFrom_nil_iff v xs (k + 1)).mpr hnotin]
          simp [hx]
      | succ j =>
          have hj : j < xs.length := Nat.lt_of_succ_lt_succ hp
          have hvj : xs.get ⟨j, hj⟩ = v := hv
          have hxv : x ≠ v := by
            intro he
            have hvmem : v ∈ xs := hvj ▸ xs.get_mem j hj
            exact (List.nodup_cons.mp hnd).1 (he ▸ hvmem)
          rw [if_neg (by simp [hxv])]
          rw [ih (k + 1) j (List.nodup_cons.mp hnd).2 hj hvj]
          have harith : k + 1 + j = k + (j + 1) := by omega
          rw [harith]

/-- Stability of `orderedInsert` on the fibre of a value: inserting an
entry never crosses an equal-valued entry. -/
theorem filter_orderedInsert_key (v : Int) (x : Int × Nat)
    (l : List (Int × Nat)) :
    (List.orderedInsert keyLE x l).filter (fun e => e.1 == v)
    = if x.1 = v then x :: l.filter (fun e => e.1 == v)
      else l.filter (fun e => e.1 == v) := by
  induction l with
  | nil =>
      by_cases hxv : x.1 = v <;>
        simp [List.orderedInsert, List.filter_cons, hxv]
  | cons y ys ih =>
      by_cases hxy : keyLE x y
      · by_cases hxv : x.1 = v <;>
          by_cases hyv : y.1 = v <;>
            simp [List.orderedInsert, hxy, List.filter_cons, hxv, hyv]
      · have hyx : y.1 < x.1 := not_le.mp hxy
        by_cases hxv : x.1 = v
        · have hyv : y.1 ≠ v := by
            intro he
            rw [he] at hyx
            rw [hxv] at hyx
            exact lt_irrefl v hyx
          simp [List.orderedInsert, hxy, List.filter_cons, ih, hxv, hyv]
        · by_cases hyv : y.1 = v <;>
            simp [List.orderedInsert, hxy, List.filter_cons, ih, hxv, hyv]

/-- Stability of the whole sort on the fibre of a value: the sorted list
contains the entries of each value in their original order. -/
theorem filter_insertionSort_key (v : Int) (l : List (Int × Nat)) :
    (List.insertionSort keyLE l).filter (fun e => e.1 == v)
    = l.filter (fun e => e.1 == v) := by
  induction l with
  | nil => rfl
  | cons x xs ih =>
      rw [List.insertionSort, filter_orderedInsert_key, ih, List.filter_cons]
      by_cases hxv : x.1 = v <;> simp [hxv]

/-- The duplicate mask has the length of the sorted list. -/
theorem dupMask_length (invert : Bool) (l : List (Int × Nat)) :
    (dupMask invert l).length = l.length := by
  induction l with
  | nil => rfl
  | cons x xs ih =>
      cases xs with
      | nil => rfl
      | cons y ys =>
          show (xor invert (x.1 == y.1) :: dupMask invert (y :: ys)).length
            = (x :: y :: ys).length
          simp only [List.length_cons]
          rw [ih]
          simp

/-- The duplicate mask of a decomposed list splits into a prefix aligned
with the left part followed by the mask of the right part. -/
theorem dupMask_append (invert : Bool) (A : List (Int × Nat))
    (x : Int × Nat) (B : List (Int × Nat)) :
    ∃ pre : List Bool, pre.length = A.length ∧
      dupMask invert (A ++ x :: B) = pre ++ dupMask invert (x :: B) := by
  induction A with
  | nil => exact ⟨[], rfl, rfl⟩
  | cons a A' ih =>
      obtain ⟨pre, hlen, heq⟩ := ih
      cases hA : A' ++ x :: B with
      | nil => simp at hA
      | cons c rest =>
          refine ⟨xor invert (a.1 == c.1) :: pre, by simp [hlen], ?_⟩
          rw [List.cons_append, hA]
          show xor invert (a.1 == c.1) :: dupMask invert (c :: rest) = _
          rw [← hA, heq]
          rfl

/-- Looking up a tag in the zipped (sorted, mask) list: with the prefix
tags all different from `x`'s tag, the lookup lands exactly on `x`'s mask
entry. -/
theorem tagLookup_split (A B : List (Int × Nat)) (x : Int × Nat)
    (pre post : List Bool) (d0 : Bool) (hlen : pre.length = A.length)
    (hA : ∀ a ∈ A, a.2 ≠ x.2) :
    tagLookup (A ++ x :: B) (pre ++ d0 :: post) x.2 = some d0 := by
  unfold tagLookup
  rw [List.zip_append hlen.symm]
  rw [List.find?_append]
  have h1 : (A.zip pre).find? (fun e => e.1.2 == x.2) = none := by
    rw [List.find?_eq_none]
    intro e he
    obtain ⟨a, b⟩ := e
    simp only [beq_iff_eq]
    exact hA a (List.of_mem_zip he).1
  rw [h1]
  rw [show (x :: B).zip (d0 :: post) = (x, d0) :: B.zip post from rfl]
  rw [List.find?_cons_of_pos _ (by simp)]
  rfl

/-- Length of the scattered mask. -/
theorem scatterByTag_length (S : List (Int × Nat)) (D : List Bool) (n : Nat) :
    (scatterByTag S D n).length = n := by
  simp [scatterByTag]

/-- Positionwise description of the scattered mask. -/
theorem scatterByTag_getD (S : List (Int × Nat)) (D : List Bool) (n q : Nat)
    (hq : q < n) :
    (scatterByTag S D n).getD q false = (tagLookup S D q).getD false := by
  unfold scatterByTag List.getD
  rw [List.get?_map, List.get?_range hq]
  rfl

/-- Get-form of `scatterByTag_getD`. -/
theorem scatterByTag_get (S : List (Int × Nat)) (D : List Bool) (n i : Nat)
    (hi : i < (scatterByTag S D n).length) :
    (scatterByTag S D n).get ⟨i, hi⟩ = (tagLookup S D i).getD false := by
  unfold scatterByTag at hi ⊢
  rw [List.get_map]
  rw [List.get_range]

/-- getElem-form of `scatterByTag_getD`. -/
theorem scatterByTag_getElem (S : List (Int × Nat)) (D : List Bool)
    (n i : Nat) (hi : i < (scatterByTag S D n).length) :
    (scatterByTag S D n)[i] = (tagLookup S D i).getD false := by
  have h := scatterByTag_get S D n i hi
  simpa [List.get_eq_getElem] using h

/-- Membership test `contains` agrees with decidable membership. -/
theorem contains_eq_decide_mem (l : List Int) (x : Int) :
    l.contains x = decide (x ∈ l) := by
  induction l with
  | nil => rfl
  | cons a as ih =>
      by_cases hx : x = a <;> simp [List.contains_cons, ih, hx]

/-- Core property of the sort path: after stably sorting the tagged
concatenation of a duplicate-free `E` with `T` and building the
adjacent-duplicate mask, the mask entry that scatters back to position
`p < |E|` is exactly `invert XOR (E[p] ∈ T)`. -/
theorem sortPath_mask_at (E T : List Int) (hE : E.Nodup) (invert : Bool)
    (p : Nat) (hp : p < E.length) :
    tagLookup (List.insertionSort keyLE (tagList (E ++ T)))
      (dupMask invert (List.insertionSort keyLE (tagList (E ++ T)))) p
    = some (xor invert (decide (E.get ⟨p, hp⟩ ∈ T))) := by
  have hpa : p < (E ++ T).length := by
    rw [List.length_append]
    omega
  have hget : (E ++ T).get ⟨p, hpa⟩ = E.get ⟨p, hp⟩ := List.get_append p hp
  have hmemL : (E.get ⟨p, hp⟩, p) ∈ tagList (E ++ T) := by
    have h0 := zipFrom_get? (E ++ T) 0 p hpa
    rw [hget, Nat.zero_add] at h0
    exact List.get?_mem h0
  have hmemS : (E.get ⟨p, hp⟩, p)
      ∈ List.insertionSort keyLE (tagList (E ++ T)) := by
    rw [List.mem_insertionSort]
    exact hmemL
  obtain ⟨A, B, hS⟩ := List.append_of_mem hmemS
  have hperm := List.perm_insertionSort keyLE (tagList (E ++ T))
  have hsorted := List.sorted_insertionSort keyLE (tagList (E ++ T))
  have htagsL : ((tagList (E ++ T)).map Prod.snd).Nodup := zipFrom_snd_nodup _ 0
  have htagsS : ((List.insertionSort keyLE (tagList (E ++ T))).map
      Prod.snd).Nodup := ((hperm.map Prod.snd).nodup_iff).mpr htagsL
  have hAtags : ∀ a ∈ A, a.2 ≠ p := by
    intro a ha hap
    rw [hS, List.map_append, List.map_cons] at htagsS
    have h1 : a.2 ∈ A.map Prod.snd := List.mem_map_of_mem Prod.snd ha
    have h2 : a.2 ∈ p :: B.map Prod.snd := by
      rw [hap]
      exact List.mem_cons_self _ _
    exact (List.nodup_append.mp htagsS).2.2 h1 h2
  have hfiltL : (tagList (E ++ T)).filter (fun e => e.1 == E.get ⟨p, hp⟩)
      = (E.get ⟨p, hp⟩, p)
        :: (zipFrom T E.length).filter (fun e => e.1 == E.get ⟨p, hp⟩) := by
    show (zipFrom (E ++ T) 0).filter _ = _
    rw [zipFrom_append, List.filter_append]
    rw [filter_zipFrom_single (E.get ⟨p, hp⟩) E 0 p hE hp rfl]
    rw [Nat.zero_add, Nat.zero_add]
    rfl
  have hfiltS : (A ++ (E.get ⟨p, hp⟩, p) :: B).filter
        (fun e => e.1 == E.get ⟨p, hp⟩)
      = (E.get ⟨p, hp⟩, p)
        :: (zipFrom T E.length).filter (fun e => e.1 == E.get ⟨p, hp⟩) := by
    rw [← hS, filter_insertionSort_key, hfiltL]
  have hAfilt : A.filter (fun e => e.1 == E.get ⟨p, hp⟩) = [] := by
    cases hca : A.filter (fun e => e.1 == E.get ⟨p, hp⟩) with
    | nil => rfl
    | cons c cs =>
        exfalso
        rw [List.filter_append, hca] at hfiltS
        have hc : c = (E.get ⟨p, hp⟩, p) := by
          have hhead := congrArg List.head? hfiltS
          simpa using hhead
        have hcA : c ∈ A :=
          List.mem_of_mem_filter (hca ▸ List.mem_cons_self c cs)
        exact hAtags c hcA (by rw [hc])
  have hBfilt : B.filter (fun e => e.1 == E.get ⟨p, hp⟩)
      = (zipFrom T E.length).filter (fun e => e.1 == E.get ⟨p, hp⟩) := by
    rw [List.filter_append, hAfilt, List.nil_append, List.filter_cons,
      if_pos (by simp)] at hfiltS
    simpa using hfiltS
  rw [hS] at hsorted
  obtain ⟨pre, hprelen, hdm⟩ := dupMask_append invert A (E.get ⟨p, hp⟩, p) B
  rw [hS, hdm]
  cases B with
  | nil =>
      have hTnil : (zipFrom T E.length).filter
          (fun e => e.1 == E.get ⟨p, hp⟩) = [] := by
        rw [← hBfilt]
        rfl
      have hnotT : E.get ⟨p, hp⟩ ∉ T :=
        (filter_zipFrom_nil_iff _ T E.length).mp hTnil
      rw [show dupMask invert [(E.get ⟨p, hp⟩, p)] = invert :: [] from rfl]
      rw [tagLookup_split A [] (E.get ⟨p, hp⟩, p) pre [] invert hprelen hAtags]
      have h2d : decide (E.get ⟨p, hp⟩ ∈ T) = false := decide_eq_false hnotT
      rw [h2d, Bool.xor_false]
  | cons b B' =>
      rw [show dupMask invert ((E.get ⟨p, hp⟩, p) :: b :: B')
          = xor invert (E.get ⟨p, hp⟩ == b.1) :: dupMask invert (b :: B')
          from rfl]
      rw [tagLookup_split A (b :: B') (E.get ⟨p, hp⟩, p) pre
        (dupMask invert (b :: B')) (xor invert (E.get ⟨p, hp⟩ == b.1))
        hprelen hAtags]
      have hpw := (List.pairwise_append.mp hsorted).2.1
      have h1 : keyLE (E.get ⟨p, hp⟩, p) b :=
        (List.pairwise_cons.mp hpw).1 b (List.mem_cons_self _ _)
      have hpw2 := (List.pairwise_cons.mp hpw).2
      by_cases hvb : E.get ⟨p, hp⟩ = b.1
      · have hvT : E.get ⟨p, hp⟩ ∈ T := by
          by_contra hnT
          have hTnil : (zipFrom T E.length).filter
              (fun e => e.1 == E.get ⟨p, hp⟩) = [] :=
            (filter_zipFrom_nil_iff _ T E.length).mpr hnT
          rw [← hBfilt] at hTnil
          have hbmem : b ∈ (b :: B').filter (fun e => e.1 == E.get ⟨p, hp⟩) :=
            List.mem_filter.mpr ⟨List.mem_cons_self _ _,
              by rw [beq_iff_eq]; exact hvb.symm⟩
          rw [hTnil] at hbmem
          exact absurd hbmem (List.not_mem_nil b)
        have h1d : (E.get ⟨p, hp⟩ == b.1) = true := by
          rw [beq_iff_eq]
          exact hvb
        have h2d : decide (E.get ⟨p, hp⟩ ∈ T) = true := decide_eq_true hvT
        rw [h1d, h2d]
      · have hvT : E.get ⟨p, hp⟩ ∉ T := by
          intro hvT
          have hTne : (zipFrom T E.length).filter
              (fun e => e.1 == E.get ⟨p, hp⟩) ≠ [] := by
            intro hnil
            exact absurd ((filter_zipFrom_nil_iff _ _ _).mp hnil)
              (not_not_intro hvT)
          rw [← hBfilt] at hTne
          cases hfc : (b :: B').filter (fun e => e.1 == E.get ⟨p, hp⟩) with
          | nil => exact hTne hfc
          | cons c cs =>
              have hcmem : c ∈ (b :: B').filter
                  (fun e => e.1 == E.get ⟨p, hp⟩) := by
                rw [hfc]
                exact List.mem_cons_self c cs
              have hcB : c ∈ b :: B' := List.mem_of_mem_filter hcmem
              have hcv : c.1 = E.get ⟨p, hp⟩ := by
                have := List.of_mem_filter hcmem
                simpa using this
              rcases List.mem_cons.mp hcB with hc | hc
              · exact hvb (by rw [← hcv, hc])
              · have h2 : keyLE b c := (List.pairwise_cons.mp hpw2).1 c hc
                have hble : b.1 ≤ E.get ⟨p, hp⟩ := hcv ▸ h2
                have hbeq : b.1 = E.get ⟨p, hp⟩ := le_antisymm hble h1
                exact hvb hbeq.symm
        have h1d : (E.get ⟨p, hp⟩ == b.1) = false := by
          rw [beq_eq_false_iff_ne]
          exact hvb
        have h2d : decide (E.get ⟨p, hp⟩ ∈ T) = false := decide_eq_false hvT
        rw [h1d, h2d]

/-- C1 (amended): the sort-based isin path agrees bit-for-bit with the
brute-force path whenever `assume_unique` is false (any operands), or
`assume_unique` is true and the elements operand is duplicate-free — the
agreement is independent of which path the size heuristic would select.
(With `assume_unique` set on duplicated elements the paths differ; see the
counterexample.) -/
theorem isin_sorting_agrees_brute (elements test : List Int)
    (au invert : Bool) (h : au = false ∨ elements.Nodup) :
    isin_sorting elements test au invert
    = isin_brute_path elements test invert := by
  cases au with
  | true =>
      have hnd : elements.Nodup := by
        rcases h with h | h
        · simp at h
        · exact h
      show (scatterByTag
          (List.insertionSort keyLE (tagList (elements ++ test)))
          (dupMask invert
            (List.insertionSort keyLE (tagList (elements ++ test))))
          (elements ++ test).length).take elements.length
        = isin_brute_path elements test invert
      unfold isin_brute_path
      apply List.ext_get
      · rw [List.length_take, scatterByTag_length, List.length_map,
          List.length_append]
        omega
      · intro i h1 h2
        have hi : i < elements.length := by
          rw [List.length_map] at h2
          exact h2
        simp only [List.get_eq_getElem, List.getElem_take, List.getElem_map]
        have hsc : i < (scatterByTag
            (List.insertionSort keyLE (tagList (elements ++ test)))
            (dupMask invert
              (List.insertionSort keyLE (tagList (elements ++ test))))
            (elements ++ test).length).length := by
          rw [scatterByTag_length, List.length_append]
          omega
        rw [scatterByTag_getElem _ _ _ i hsc]
        rw [sortPath_mask_at elements test hnd invert i hi]
        rw [Option.getD_some]
        rw [contains_eq_decide_mem]
        rfl
  | false =>
      show (uniqueInverse elements).map (fun q =>
          (scatterByTag
            (List.insertionSort keyLE
              (tagList (uniqueList elements ++ uniqueList test)))
            (dupMask invert
              (List.insertionSort keyLE
                (tagList (uniqueList elements ++ uniqueList test))))
            (uniqueList elements ++ uniqueList test).length).getD q false)
        = isin_brute_path elements test invert
      unfold isin_brute_path uniqueInverse
      apply List.ext_get
      · simp
      · intro i h1 h2
        have hi : i < elements.length := by
          rw [List.length_map] at h2
          exact h2
        simp only [List.get_eq_getElem, List.getElem_map]
        have hxmem : elements[i] ∈ uniqueList elements := by
          rw [uniqueList]
          exact List.mem_dedup.mpr (List.getElem_mem hi)
        have hq : (uniqueList elements).indexOf elements[i]
            < (uniqueList elements).length :=
          List.indexOf_lt_length.mpr hxmem
        have hqn : (uniqueList elements).indexOf elements[i]
            < (uniqueList elements ++ uniqueList test).length := by
          rw [List.length_append]
          omega
        rw [scatterByTag_getD _ _ _ _ hqn]
        rw [sortPath_mask_at (uniqueList elements) (uniqueList test)
          (List.nodup_dedup elements) invert _ hq]
        rw [Option.getD_some]
        have hqget : (uniqueList elements).get
            ⟨(uniqueList elements).indexOf elements[i], hq⟩ = elements[i] := by
          rw [List.get_eq_getElem]
          exact List.getElem_indexOf hq
        rw [hqget]
        rw [contains_eq_decide_mem]
        have hmem_iff : (elements[i] ∈ uniqueList test) = (elements[i] ∈ test) := by
          simp [uniqueList, List.mem_dedup]
        simp only [hmem_iff]

/-- C1 witness: concrete application of `isin_sorting_agrees_brute` with
`assume_unique` set on duplicate-free elements. -/
theorem isin_sorting_agrees_brute_witness :
    ([1, 2] : List Int).Nodup
    ∧ isin_sorting [1, 2] [2] true true = isin_brute_path [1, 2] [2] true :=
  ⟨by decide,
   isin_sorting_agrees_brute [1, 2] [2] true true (Or.inr (by decide))⟩

/-- C1 counterexample: with `assume_unique = true` and duplicated
elements the two paths disagree — the sort path marks the first copy of a
repeated element as a member even though it is absent from the test
elements. -/
theorem isin_assume_unique_paths_disagree :
    isin_sorting [2, 2] [5] true false ≠ isin_brute_path [2, 2] [5] false
    ∧ isin_sorting [2, 2] [5] true false = [true, false]
    ∧ isin_brute_path [2, 2] [5] false = [false, false] := by
  refine ⟨?_, by decide, by decide⟩
  decide
